import Mathlib

/-!
Verification of the pdf-ai-tool repository: a shallow embedding of its
selection-extraction, chunking, hybrid-retrieval and server code, with
theorems checking the specification's claims against it.

JS numbers are modelled as rationals (ℚ); JS strings as Lean `String`
(as `List Char` where character-level splitting matters); JS objects used
as string-keyed maps as insertion-ordered association lists; the stable
JS `Array.prototype.sort` as a stable merge sort over the index-tagged
list.
-/

namespace PdfAiTool

/-! ## JS object-as-map primitives

`obj[k]` lookup and `obj[k] = v` assignment on a plain JS object,
modelled as an association list that preserves insertion order and
overwrites in place. -/

def objGet {α : Type} (m : List (String × α)) (k : String) : Option α :=
  match m with
  | [] => none
  | (k', v) :: rest => if k' = k then some v else objGet rest k

def objSet {α : Type} (m : List (String × α)) (k : String) (v : α) :
    List (String × α) :=
  match m with
  | [] => [(k, v)]
  | (k', v') :: rest =>
    if k' = k then (k', v) :: rest else (k', v') :: objSet rest k v

/-- JS `x || 0` applied to a possibly-absent number: `undefined` becomes 0,
and `0 || 0 = 0`, so a present value is returned unchanged. -/
def jsOrZero (o : Option ℚ) : ℚ :=
  match o with
  | none => 0
  | some v => v

/-! ## Selection rectangle normalization

`handleMouseMove` in PDFViewer.tsx and `onMouseMove` in the secondary
viewer both build the selection rectangle from the drag anchor
`(startX, startY)` and the current cursor `(cursorX, cursorY)` as
`{x: min, y: min, width: |dx|, height: |dy|}`. The same record also
models the secondary viewer's `{left, top, width, height}` boxes, with
`x` standing for `left` and `y` for `top`. -/

structure SelectionRect where
  x : ℚ
  y : ℚ
  width : ℚ
  height : ℚ
deriving DecidableEq

def handleMouseMoveRect (startX startY cursorX cursorY : ℚ) : SelectionRect :=
  { x := min startX cursorX
    y := min startY cursorY
    width := |cursorX - startX|
    height := |cursorY - startY| }

/-! ## Cosine similarity (`cosineSimilarity` in the secondary viewer)

The JS code computes `dot / (magA * magB)` guarded by the truthiness of
both magnitudes (`magA && magB ? _ : 0`). `Math.sqrt` is an external
real-valued function; it is passed in as a parameter `sq`, about which
the theorems assume only that on nonnegative inputs it is zero exactly
at zero (true of the real square root). -/

def sumSq (v : List ℚ) : ℚ :=
  v.foldl (fun s a => s + a * a) 0

def dotProd (u v : List ℚ) : ℚ :=
  (List.zipWith (fun a b => a * b) u v).sum

def cosineSimilarity (sq : ℚ → ℚ) (vecA vecB : List ℚ) : ℚ :=
  let dot := dotProd vecA vecB
  let magA := sq (sumSq vecA)
  let magB := sq (sumSq vecB)
  if magA ≠ 0 ∧ magB ≠ 0 then dot / (magA * magB) else 0

/-! ## Chunker (`chunkText` in the secondary viewer)

JS strings are modelled as `List Char`. `text.split(" ")` is
`List.splitOn ' '`, `arr.join(" ")` is `List.intercalate [' ']`, and
`.length` is `List.length`. The loop accumulates words into `chunk`,
closes the chunk as soon as its joined length reaches `size`, and
flushes a nonempty remainder. -/

def chunkTextGo (size : ℕ) (chunk : List (List Char)) :
    List (List Char) → List (List (List Char))
  | [] => if chunk.length ≠ 0 then [chunk] else []
  | w :: ws =>
    if size ≤ (List.intercalate [' '] (chunk ++ [w])).length then
      (chunk ++ [w]) :: chunkTextGo size [] ws
    else chunkTextGo size (chunk ++ [w]) ws

def chunkText (text : List Char) (size : ℕ) : List (List Char) :=
  (chunkTextGo size [] (text.splitOn ' ')).map (List.intercalate [' '])

/-- JS whitespace test for the four ASCII whitespace characters relevant to
splitting text on whitespace. -/
def isWhitespaceChar (c : Char) : Bool :=
  c = ' ' || c = '\t' || c = '\n' || c = '\r'

/-- Splitting a character sequence on whitespace into its (nonempty) words. -/
def splitWhitespace (text : List Char) : List (List Char) :=
  (List.splitOnP isWhitespaceChar text).filter (fun w => !w.isEmpty)

/-! ## Hybrid retrieval ranker (`handleAsk` in the secondary viewer)

The vector index is a list of `(text, embedding)` chunks. `handleAsk`
seeds a JS object keyed by chunk text with question-similarity scores;
when a (truthy, i.e. nonempty) primary excerpt exists it rescores each
chunk against the excerpt vector and keeps
`Math.max(combined[text] || 0, score * 1.1)`; the entries are then
sorted descending by score (stable) and the first three texts distinct
from the primary excerpt are collected. -/

structure Chunk where
  text : String
  embedding : List ℚ
deriving DecidableEq

def combinedScores (sq : ℚ → ℚ) (embed : String → List ℚ)
    (question excerpt : String) (db : List Chunk) : List (String × ℚ) :=
  let qVec := embed question
  let base := (db.map (fun e =>
      (e.text, cosineSimilarity sq qVec e.embedding))).foldl
    (fun m p => objSet m p.1 p.2) []
  if excerpt = "" then base
  else
    let selVec := embed excerpt
    (db.map (fun e =>
        (e.text, cosineSimilarity sq selVec e.embedding))).foldl
      (fun m p => objSet m p.1 (max (jsOrZero (objGet m p.1)) (p.2 * (11 / 10)))) base

def sortByScoreDesc (l : List (String × ℚ)) : List (String × ℚ) :=
  ((l.enum).mergeSort (fun p q =>
    decide (q.2.2 < p.2.2 ∨ (p.2.2 = q.2.2 ∧ p.1 ≤ q.1)))).map (fun p => p.2)

def pickSupplements (excerpt : String) : List (String × ℚ) → ℕ → List String
  | [], _ => []
  | (t, _) :: rest, slots =>
    if slots = 0 then []
    else if excerpt ≠ "" ∧ t = excerpt then pickSupplements excerpt rest slots
    else t :: pickSupplements excerpt rest (slots - 1)

def rankSupplements (sq : ℚ → ℚ) (embed : String → List ℚ)
    (question excerpt : String) (db : List Chunk) : List String :=
  pickSupplements excerpt
    (sortByScoreDesc (combinedScores sq embed question excerpt db)) 3

/-! ## Selection extraction in PDFViewer.tsx (`handleMouseUp`)

A page text item carries a 6-entry affine transform `[a, b, c, d, e, f]`.
The component reads `x = transform[4]`, `y = viewport.height -
transform[5]`, takes `item.height || 12` as both the box height and the
font size, keeps items whose overlap ratio with the selection is at
least 0.3, sorts them by `y` with the stable JS sort, and then applies
the heading-suppression filter. -/

structure Affine where
  a : ℚ
  b : ℚ
  c : ℚ
  d : ℚ
  e : ℚ
  f : ℚ
deriving DecidableEq

structure TSXItem where
  str : String
  transform : Affine
  width : ℚ
  height : ℚ
deriving DecidableEq

/-- JS `item.height || 12`: the fallback height when the run reports none
(modelled as a reported height of 0, which is falsy in JS). -/
def heightOr12 (h : ℚ) : ℚ := if h = 0 then 12 else h

structure ScoredItem where
  str : String
  fontSize : ℚ
  y : ℚ
deriving DecidableEq

def tsxKeptItems (sel : SelectionRect) (vpHeight : ℚ) (items : List TSXItem) :
    List ScoredItem :=
  (items.filter (fun item =>
    let x := item.transform.e
    let y := vpHeight - item.transform.f
    let w := item.width
    let h := heightOr12 item.height
    let overlapX := max 0 (min (sel.x + sel.width) (x + w) - max sel.x x)
    let overlapY := max 0 (min (sel.y + sel.height) (y + h) - max sel.y y)
    decide ((3 : ℚ) / 10 ≤ overlapX * overlapY / (w * h)))).map
    (fun item => ⟨item.str, heightOr12 item.height, vpHeight - item.transform.f⟩)

/-- The comparison key of the stable JS sort `(a, b) => a.y - b.y` over the
index-tagged kept items: ascending `y`, ties by original position. -/
def vertLE (p q : ℕ × ScoredItem) : Bool :=
  decide (p.2.y < q.2.y ∨ (p.2.y = q.2.y ∧ p.1 ≤ q.1))

def sortSelectedItems (items : List ScoredItem) : List ScoredItem :=
  ((items.enum).mergeSort vertLE).map (fun p => p.2)

def avgFontSize (items : List ScoredItem) : ℚ :=
  (items.foldl (fun s i => s + i.fontSize) 0) / items.length

def headingCandidates (items : List ScoredItem) : List ScoredItem :=
  items.filter (fun i => decide (avgFontSize items * (3 / 2) < i.fontSize))

def headingFilter (items : List ScoredItem) : List ScoredItem :=
  items.filter (fun item =>
    let isLargeHeading := decide (avgFontSize items * (3 / 2) < item.fontSize)
    let headingCount := (headingCandidates items).length
    let totalItems := items.length
    !isLargeHeading ||
      decide ((1 : ℚ) / 2 < (headingCount : ℚ) / totalItems) ||
      decide (totalItems ≤ 3))

def extractSelectedItemsTSX (sel : SelectionRect) (vpHeight : ℚ)
    (items : List TSXItem) : List ScoredItem :=
  headingFilter (sortSelectedItems (tsxKeptItems sel vpHeight items))

/-! ## Selection extraction in the secondary viewer (`extractFromSelection`)

This variant combines the run transform with the viewport transform via
pdf.js `Util.transform` (2×3 affine composition, an external library
function with fixed semantics), computes the top-down box, keeps runs
with coverage ≥ 0.3 and joins their texts in original document order —
it performs no sorting and no heading suppression. -/

def utilTransform (m1 m2 : Affine) : Affine :=
  { a := m1.a * m2.a + m1.c * m2.b
    b := m1.b * m2.a + m1.d * m2.b
    c := m1.a * m2.c + m1.c * m2.d
    d := m1.b * m2.c + m1.d * m2.d
    e := m1.a * m2.e + m1.c * m2.f + m1.e
    f := m1.b * m2.e + m1.d * m2.f + m1.f }

structure Viewport where
  transform : Affine
  scale : ℚ
deriving DecidableEq

def getOverlap (a b : SelectionRect) : ℚ :=
  (max 0 (min (a.x + a.width) (b.x + b.width) - max a.x b.x)) *
  (max 0 (min (a.y + a.height) (b.y + b.height) - max a.y b.y))

def itemBox (vp : Viewport) (item : TSXItem) : SelectionRect :=
  let tx := utilTransform vp.transform item.transform
  { x := tx.e
    y := tx.f - item.height
    width := item.width * vp.scale
    height := item.height }

def extractKept (sel : SelectionRect) (vp : Viewport) (items : List TSXItem) :
    List TSXItem :=
  items.filter (fun item =>
    let box := itemBox vp item
    decide ((3 : ℚ) / 10 ≤ getOverlap sel box / (box.width * box.height)))

def extractFromSelection (sel : SelectionRect) (vp : Viewport)
    (items : List TSXItem) : String :=
  (String.intercalate " " ((extractKept sel vp items).map TSXItem.str)).trim

/-! ## Server (`server/index.js`, modelled from `app.post('/api/ask')`)

The Express handler validates the body, consults a 24-hour response
cache keyed by a base64 encoding of the exact string
`` `${context}|${question}` `` (base64 is injective, so it is dropped
here without affecting hits or misses), and otherwise dispatches to the
adapter chosen by `getModelAdapter`. The external `generateResponse`
calls are passed in as a function from adapter and inputs to the
response. Only the validation/cache/dispatch control flow is modelled;
thrown provider errors (401/429/500 paths) are outside this model. -/

structure AIResponse where
  answer : String
  source : String
deriving DecidableEq

inductive Adapter where
  | openaiAdapter
  | anthropicAdapter
  | fallbackAdapter
deriving DecidableEq

def getModelAdapter (openaiConfigured anthropicConfigured : Bool)
    (preferredModel : Option String) : Adapter :=
  if preferredModel = some "openai" ∧ openaiConfigured = true then
    Adapter.openaiAdapter
  else if preferredModel = some "anthropic" ∧ anthropicConfigured = true then
    Adapter.anthropicAdapter
  else if openaiConfigured = true then Adapter.openaiAdapter
  else if anthropicConfigured = true then Adapter.anthropicAdapter
  else Adapter.fallbackAdapter

/-- JS falsiness of `req.body.context` / `req.body.question`: absent
(`undefined`) or the empty string. -/
def jsFalsyStr (o : Option String) : Bool :=
  match o with
  | none => true
  | some s => s == ""

structure AskOutcome where
  status : ℕ
  payload : Option AIResponse
  cache : List (String × AIResponse)
  invokedAdapter : Bool
deriving DecidableEq

def cacheKey (context question : String) : String :=
  context ++ "|" ++ question

def postAsk (openaiConfigured anthropicConfigured : Bool)
    (generate : Adapter → String → String → AIResponse)
    (cache : List (String × AIResponse))
    (context question model : Option String) : AskOutcome :=
  if jsFalsyStr context || jsFalsyStr question then
    ⟨400, none, cache, false⟩
  else
    let ctx := context.getD ""
    let q := question.getD ""
    if 10000 < ctx.length then ⟨400, none, cache, false⟩
    else if 1000 < q.length then ⟨400, none, cache, false⟩
    else
      let key := cacheKey ctx q
      match objGet cache key with
      | some cached => ⟨200, some cached, cache, false⟩
      | none =>
        let adapter := getModelAdapter openaiConfigured anthropicConfigured model
        let resp := generate adapter ctx q
        ⟨200, some resp, objSet cache key resp, true⟩

/-! ## Theorems -/

theorem sumSq_go_nonneg (v : List ℚ) (acc : ℚ) (hacc : 0 ≤ acc) :
    0 ≤ v.foldl (fun s a => s + a * a) acc := by
  induction v generalizing acc with
  | nil => simpa using hacc
  | cons a t ih =>
    exact ih (acc + a * a) (add_nonneg hacc (mul_self_nonneg a))

theorem sumSq_nonneg (v : List ℚ) : 0 ≤ sumSq v :=
  sumSq_go_nonneg v 0 le_rfl

theorem sumSq_replicate_zero (n : ℕ) : sumSq (List.replicate n 0) = 0 := by
  induction n with
  | zero => rfl
  | succ k ih =>
    simpa [sumSq, List.replicate_succ, List.foldl_cons] using ih

/-- C10: every selection rectangle produced on a mouse-move event is
normalized — its width and height are non-negative and its origin is the
componentwise minimum of the drag anchor and the cursor position,
whichever direction the user drags. -/
theorem C10_mouseMove_rect_normalized (startX startY cursorX cursorY : ℚ) :
    0 ≤ (handleMouseMoveRect startX startY cursorX cursorY).width ∧
    0 ≤ (handleMouseMoveRect startX startY cursorX cursorY).height ∧
    (handleMouseMoveRect startX startY cursorX cursorY).x = min startX cursorX ∧
    (handleMouseMoveRect startX startY cursorX cursorY).y = min startY cursorY :=
  ⟨abs_nonneg _, abs_nonneg _, rfl, rfl⟩

/-- C6: for equal-length vectors, `cosineSimilarity` returns
`dot / (|u| * |v|)` when both magnitudes are nonzero (a vector's magnitude
is zero exactly when its sum of squares is), returns 0 when either
magnitude is zero, and in particular returns 0 against an all-zero
vector — there is no division by zero and no error path. -/
theorem C6_cosineSimilarity_spec (sq : ℚ → ℚ)
    (hsq : ∀ x : ℚ, 0 ≤ x → (sq x = 0 ↔ x = 0))
    (u v : List ℚ) (_hlen : u.length = v.length) :
    (sumSq u ≠ 0 → sumSq v ≠ 0 →
      cosineSimilarity sq u v = dotProd u v / (sq (sumSq u) * sq (sumSq v))) ∧
    ((sumSq u = 0 ∨ sumSq v = 0) → cosineSimilarity sq u v = 0) ∧
    cosineSimilarity sq u (List.replicate u.length 0) = 0 := by
  have hu := hsq (sumSq u) (sumSq_nonneg u)
  have hv := hsq (sumSq v) (sumSq_nonneg v)
  refine ⟨?_, ?_, ?_⟩
  · intro hu0 hv0
    have h1 : sq (sumSq u) ≠ 0 := fun h => hu0 (hu.mp h)
    have h2 : sq (sumSq v) ≠ 0 := fun h => hv0 (hv.mp h)
    simp [cosineSimilarity, h1, h2]
  · intro h
    rcases h with h | h
    · have h1 : sq (sumSq u) = 0 := hu.mpr h
      simp [cosineSimilarity, h1]
    · have h2 : sq (sumSq v) = 0 := hv.mpr h
      simp [cosineSimilarity, h2]
  · have hz : sumSq (List.replicate u.length 0) = 0 := sumSq_replicate_zero _
    have h2 : sq (sumSq (List.replicate u.length 0)) = 0 :=
      (hsq _ (sumSq_nonneg _)).mpr hz
    simp [cosineSimilarity, h2]

/-- C6 witness: the theorem applied to the identity as `sq` and the
concrete vectors `[1, 2]` and `[0, 3]`, with every hypothesis discharged. -/
theorem C6_cosineSimilarity_spec_witness :
    (∀ x : ℚ, 0 ≤ x → ((fun y : ℚ => y) x = 0 ↔ x = 0)) ∧
    ([(1 : ℚ), 2].length = [(0 : ℚ), 3].length) ∧
    ((sumSq [(1 : ℚ), 2] ≠ 0 → sumSq [(0 : ℚ), 3] ≠ 0 →
      cosineSimilarity (fun y : ℚ => y) [1, 2] [0, 3] =
        dotProd [1, 2] [0, 3] / (sumSq [1, 2] * sumSq [0, 3])) ∧
    ((sumSq [(1 : ℚ), 2] = 0 ∨ sumSq [(0 : ℚ), 3] = 0) →
      cosineSimilarity (fun y : ℚ => y) [1, 2] [0, 3] = 0) ∧
    cosineSimilarity (fun y : ℚ => y) [(1 : ℚ), 2]
      (List.replicate [(1 : ℚ), 2].length 0) = 0) :=
  ⟨fun _ _ => Iff.rfl, rfl,
    C6_cosineSimilarity_spec (fun y : ℚ => y) (fun _ _ => Iff.rfl) [1, 2] [0, 3] rfl⟩

theorem chunkTextGo_flatten (size : ℕ) (ws : List (List Char)) :
    ∀ chunk, (chunkTextGo size chunk ws).flatten = chunk ++ ws := by
  induction ws with
  | nil =>
    intro chunk
    by_cases h : chunk.length ≠ 0 <;> simp_all [chunkTextGo]
  | cons w ws ih =>
    intro chunk
    by_cases h : size ≤ (List.intercalate [' '] (chunk ++ [w])).length <;>
      simp [chunkTextGo, h, ih]

theorem chunkTextGo_ne_nil (size : ℕ) (ws : List (List Char)) :
    ∀ chunk g, g ∈ chunkTextGo size chunk ws → g ≠ [] := by
  induction ws with
  | nil =>
    intro chunk g hg
    by_cases h : chunk.length ≠ 0 <;> simp_all [chunkTextGo]
  | cons w ws ih =>
    intro chunk g hg
    by_cases h : size ≤ (List.intercalate [' '] (chunk ++ [w])).length
    · simp only [chunkTextGo, if_pos h, List.mem_cons] at hg
      rcases hg with rfl | hg
      · simp
      · exact ih [] g hg
    · simp only [chunkTextGo, if_neg h] at hg
      exact ih (chunk ++ [w]) g hg

theorem intercalate_cons_of_ne_nil {α : Type} (s x : List α)
    (L : List (List α)) (hL : L ≠ []) :
    List.intercalate s (x :: L) = x ++ s ++ List.intercalate s L := by
  obtain ⟨y, t, rfl⟩ := List.exists_cons_of_ne_nil hL
  simp [List.intercalate, List.append_assoc]

theorem intercalate_append_of_ne_nil {α : Type} (s : List α) (a b : List (List α))
    (ha : a ≠ []) (hb : b ≠ []) :
    List.intercalate s (a ++ b) = List.intercalate s a ++ s ++ List.intercalate s b := by
  induction a with
  | nil => cases ha rfl
  | cons x t ih =>
    cases t with
    | nil =>
      simpa [List.intercalate] using intercalate_cons_of_ne_nil s x b hb
    | cons y u =>
      have ht : (y :: u : List (List α)) ≠ [] := by simp
      rw [List.cons_append, intercalate_cons_of_ne_nil s x ((y :: u) ++ b) (by simp),
        intercalate_cons_of_ne_nil s x (y :: u) ht, ih ht]
      simp [List.append_assoc]

theorem intercalate_map_intercalate (s : List Char) (L : List (List (List Char)))
    (h : ∀ g ∈ L, g ≠ []) :
    List.intercalate s (L.map (List.intercalate s)) =
      List.intercalate s L.flatten := by
  induction L with
  | nil => rfl
  | cons G rest ih =>
    have hG : G ≠ [] := h G (List.mem_cons_self _ _)
    by_cases hrest : rest = []
    · subst hrest
      simp [List.intercalate]
    · have hflat : rest.flatten ≠ [] := by
        obtain ⟨G', t, rfl⟩ := List.exists_cons_of_ne_nil hrest
        have hG' : G' ≠ [] := h G' (by simp)
        simp only [List.flatten_cons, ne_eq, List.append_eq_nil]
        exact fun hc => hG' hc.1
      rw [List.map_cons, intercalate_cons_of_ne_nil s _ _ (by simpa using hrest),
        ih (fun g hg => h g (List.mem_cons_of_mem _ hg)),
        List.flatten_cons, intercalate_append_of_ne_nil s G rest.flatten hG hflat]

/-- C2: the chunker with target size 400 loses nothing — re-joining all
chunks with a single space reproduces the input text exactly, the chunk
groups partition the word list of the input (so no boundary splits a word
and no word is lost or duplicated), and re-splitting the joined chunks on
whitespace yields exactly the original whitespace word sequence. -/
theorem C2_chunkText_reconstructs (text : List Char) :
    List.intercalate [' '] (chunkText text 400) = text ∧
    (chunkTextGo 400 [] (text.splitOn ' ')).flatten = text.splitOn ' ' ∧
    splitWhitespace (List.intercalate [' '] (chunkText text 400)) =
      splitWhitespace text := by
  have hflat : (chunkTextGo 400 [] (text.splitOn ' ')).flatten = text.splitOn ' ' := by
    simpa using chunkTextGo_flatten 400 (text.splitOn ' ') []
  have hjoin : List.intercalate [' '] (chunkText text 400) = text := by
    unfold chunkText
    rw [intercalate_map_intercalate [' '] _ (chunkTextGo_ne_nil 400 (text.splitOn ' ') []),
      hflat, List.intercalate_splitOn]
  exact ⟨hjoin, hflat, by rw [hjoin]⟩

theorem objGet_objSet_self {α : Type} (m : List (String × α)) (k : String) (v : α) :
    objGet (objSet m k v) k = some v := by
  induction m with
  | nil => simp [objGet, objSet]
  | cons p rest ih =>
    by_cases h : p.1 = k <;> simp [objGet, objSet, h, ih]

theorem objGet_objSet_ne {α : Type} (m : List (String × α)) (k k' : String) (v : α)
    (h : k' ≠ k) : objGet (objSet m k' v) k = objGet m k := by
  induction m with
  | nil => simp [objGet, objSet, h]
  | cons p rest ih =>
    by_cases hp : p.1 = k' <;> by_cases hq : p.1 = k <;>
      simp_all [objGet, objSet]

theorem objGet_foldl_of_ne {α β : Type} (key : β → String)
    (f : List (String × α) → β → α) (db : List β) (k : String)
    (h : ∀ e ∈ db, key e ≠ k) :
    ∀ m, objGet (db.foldl (fun m x => objSet m (key x) (f m x)) m) k = objGet m k := by
  induction db with
  | nil => intro m; rfl
  | cons e t ih =>
    intro m
    rw [List.foldl_cons, ih (fun x hx => h x (List.mem_cons_of_mem _ hx)),
      objGet_objSet_ne _ _ _ _ (h e (List.mem_cons_self _ _))]

theorem objGet_foldl_objSet {α β : Type} (key : β → String) (f : Option α → β → α)
    (db : List β) (hnd : (db.map key).Nodup) (e : β) (he : e ∈ db) :
    ∀ m, objGet (db.foldl (fun m x => objSet m (key x) (f (objGet m (key x)) x)) m)
      (key e) = some (f (objGet m (key e)) e) := by
  induction db with
  | nil => cases he
  | cons x t ih =>
    intro m
    rw [List.map_cons, List.nodup_cons] at hnd
    rcases List.mem_cons.mp he with rfl | het
    · rw [List.foldl_cons,
        objGet_foldl_of_ne key (fun m x => f (objGet m (key x)) x) t (key e)
          (fun y hy hk => hnd.1 (hk ▸ List.mem_map_of_mem key hy)),
        objGet_objSet_self]
    · rw [List.foldl_cons, ih hnd.2 het]
      have hk : key x ≠ key e := fun hk =>
        hnd.1 (hk ▸ List.mem_map_of_mem key het)
      rw [objGet_objSet_ne _ _ _ _ hk]

theorem pickSupplements_length (excerpt : String) (l : List (String × ℚ)) :
    ∀ slots, (pickSupplements excerpt l slots).length ≤ slots := by
  induction l with
  | nil => intro slots; simp [pickSupplements]
  | cons p rest ih =>
    intro slots
    obtain ⟨t, s⟩ := p
    by_cases h0 : slots = 0
    · simp [pickSupplements, h0]
    · by_cases hskip : excerpt ≠ "" ∧ t = excerpt
      · simpa [pickSupplements, h0, hskip] using ih slots
      · have := ih (slots - 1)
        simp only [pickSupplements, if_neg h0, if_neg hskip, List.length_cons]
        omega

theorem pickSupplements_not_mem (excerpt : String) (hne : excerpt ≠ "")
    (l : List (String × ℚ)) :
    ∀ slots, excerpt ∉ pickSupplements excerpt l slots := by
  induction l with
  | nil => intro slots; simp [pickSupplements]
  | cons p rest ih =>
    intro slots
    obtain ⟨t, s⟩ := p
    by_cases h0 : slots = 0
    · simp [pickSupplements, h0]
    · by_cases hskip : excerpt ≠ "" ∧ t = excerpt
      · simpa [pickSupplements, h0, hskip] using ih slots
      · have ht : t ≠ excerpt := fun h => hskip ⟨hne, h⟩
        simp only [pickSupplements, if_neg h0, if_neg hskip, List.mem_cons]
        rintro (rfl | hmem)
        · exact ht rfl
        · exact ih (slots - 1) hmem

/-- C1: for every index, question, excerpt and embedding function, the
hybrid ranker returns at most 3 supplementary chunk texts, and when a
primary excerpt is set (nonempty) none of them equals the excerpt
verbatim — even if the chunk equal to the excerpt scored highest, since
the exclusion happens while walking the score-sorted list. -/
theorem C1_supplements_bounded_and_exclude_excerpt (sq : ℚ → ℚ)
    (embed : String → List ℚ) (question excerpt : String) (db : List Chunk) :
    (rankSupplements sq embed question excerpt db).length ≤ 3 ∧
    (excerpt ≠ "" → excerpt ∉ rankSupplements sq embed question excerpt db) :=
  ⟨pickSupplements_length excerpt _ 3,
    fun hne => pickSupplements_not_mem excerpt hne _ 3⟩

/-- C1 witness: the theorem applied to a concrete two-chunk index whose
first chunk's text equals the (nonempty) primary excerpt. -/
theorem C1_supplements_bounded_and_exclude_excerpt_witness :
    (("x" : String) ≠ "") ∧
    (rankSupplements (fun y : ℚ => y) (fun s => [(s.length : ℚ)]) "q" "x"
      [⟨"x", [1]⟩, ⟨"y", [2]⟩]).length ≤ 3 ∧
    "x" ∉ rankSupplements (fun y : ℚ => y) (fun s => [(s.length : ℚ)]) "q" "x"
      [⟨"x", [1]⟩, ⟨"y", [2]⟩] :=
  ⟨by decide,
    (C1_supplements_bounded_and_exclude_excerpt (fun y : ℚ => y)
      (fun s => [(s.length : ℚ)]) "q" "x" [⟨"x", [1]⟩, ⟨"y", [2]⟩]).1,
    (C1_supplements_bounded_and_exclude_excerpt (fun y : ℚ => y)
      (fun s => [(s.length : ℚ)]) "q" "x" [⟨"x", [1]⟩, ⟨"y", [2]⟩]).2 (by decide)⟩

/-- C3: the final score the ranker assigns to each distinct chunk text is
`max(questionScore, excerptScore * 1.1)` when a nonempty primary excerpt
exists, and `questionScore` alone when it does not, where the scores are
the chunk's cosine similarities to the question and excerpt embeddings. -/
theorem C3_combined_score_formula (sq : ℚ → ℚ) (embed : String → List ℚ)
    (question excerpt : String) (db : List Chunk)
    (hnd : (db.map Chunk.text).Nodup) (e : Chunk) (he : e ∈ db) :
    objGet (combinedScores sq embed question excerpt db) e.text =
      some (if excerpt = "" then
        cosineSimilarity sq (embed question) e.embedding
      else
        max (cosineSimilarity sq (embed question) e.embedding)
          (cosineSimilarity sq (embed excerpt) e.embedding * (11 / 10))) := by
  simp only [combinedScores, List.foldl_map]
  have hbase := objGet_foldl_objSet Chunk.text
    (fun _ x => cosineSimilarity sq (embed question) x.embedding) db hnd e he []
  by_cases hx : excerpt = ""
  · simpa [hx] using hbase
  · rw [if_neg hx, if_neg hx]
    rw [objGet_foldl_objSet Chunk.text
      (fun o x => max (jsOrZero o) (cosineSimilarity sq (embed excerpt) x.embedding * (11 / 10)))
      db hnd e he _, hbase]
    simp [jsOrZero]

/-- C3 witness: the theorem applied to a concrete two-chunk index with
distinct texts and a nonempty excerpt, hypotheses discharged by `decide`. -/
theorem C3_combined_score_formula_witness :
    ((([⟨"a", [1]⟩, ⟨"b", [2]⟩] : List Chunk).map Chunk.text).Nodup) ∧
    ((⟨"a", [1]⟩ : Chunk) ∈ ([⟨"a", [1]⟩, ⟨"b", [2]⟩] : List Chunk)) ∧
    objGet (combinedScores (fun y : ℚ => y) (fun s => [(s.length : ℚ)]) "q" "a"
        [⟨"a", [1]⟩, ⟨"b", [2]⟩]) "a" =
      some (if ("a" : String) = "" then
        cosineSimilarity (fun y : ℚ => y) ((fun s : String => [(s.length : ℚ)]) "q") [1]
      else
        max (cosineSimilarity (fun y : ℚ => y) ((fun s : String => [(s.length : ℚ)]) "q") [1])
          (cosineSimilarity (fun y : ℚ => y) ((fun s : String => [(s.length : ℚ)]) "a") [1]
            * (11 / 10))) :=
  ⟨by decide, by decide,
    C3_combined_score_formula (fun y : ℚ => y) (fun s => [(s.length : ℚ)]) "q" "a"
      [⟨"a", [1]⟩, ⟨"b", [2]⟩] (by decide) ⟨"a", [1]⟩ (by decide)⟩

/-- C4: among the kept runs, a run is a heading candidate exactly when its
font size exceeds 1.5 × the average font size; the heading filter drops
exactly the heading candidates unless the candidates are more than half
of the kept runs or there are at most 3 kept runs, in which cases it
keeps every run. -/
theorem C4_heading_suppression (items : List ScoredItem) :
    (∀ i ∈ items, (i ∈ headingCandidates items ↔
        avgFontSize items * (3 / 2) < i.fontSize)) ∧
    headingFilter items =
      (if (1 : ℚ) / 2 < ((headingCandidates items).length : ℚ) / items.length ∨
          items.length ≤ 3
       then items
       else items.filter
         (fun i => !decide (avgFontSize items * (3 / 2) < i.fontSize))) := by
  constructor
  · intro i hi
    simp [headingCandidates, List.mem_filter, hi]
  · by_cases hc : (1 : ℚ) / 2 < ((headingCandidates items).length : ℚ) / items.length ∨
        items.length ≤ 3
    · rw [if_pos hc]
      apply List.filter_eq_self.mpr
      intro i _
      show (!decide (avgFontSize items * (3 / 2) < i.fontSize) ||
        decide ((1 : ℚ) / 2 < ((headingCandidates items).length : ℚ) / items.length) ||
        decide (items.length ≤ 3)) = true
      rcases hc with hc | hc
      · rw [decide_eq_true hc]
        simp
      · rw [decide_eq_true hc]
        simp
    · rw [if_neg hc]
      push_neg at hc
      apply List.filter_congr
      intro i _
      show (!decide (avgFontSize items * (3 / 2) < i.fontSize) ||
        decide ((1 : ℚ) / 2 < ((headingCandidates items).length : ℚ) / items.length) ||
        decide (items.length ≤ 3)) =
        !decide (avgFontSize items * (3 / 2) < i.fontSize)
      rw [decide_eq_false (not_lt.mpr hc.1), decide_eq_false (not_le.mpr hc.2)]
      simp

theorem vertLE_trans (a b c : ℕ × ScoredItem) (h1 : vertLE a b = true)
    (h2 : vertLE b c = true) : vertLE a c = true := by
  simp only [vertLE, decide_eq_true_eq] at h1 h2 ⊢
  rcases h1 with h1 | ⟨h1e, h1i⟩ <;> rcases h2 with h2 | ⟨h2e, h2i⟩
  · exact Or.inl (lt_trans h1 h2)
  · exact Or.inl (h2e ▸ h1)
  · exact Or.inl (h1e ▸ h2)
  · exact Or.inr ⟨h1e.trans h2e, le_trans h1i h2i⟩

theorem vertLE_total (a b : ℕ × ScoredItem) : vertLE a b || vertLE b a := by
  simp only [vertLE, Bool.or_eq_true, decide_eq_true_eq]
  rcases lt_trichotomy a.2.y b.2.y with h | h | h
  · exact Or.inl (Or.inl h)
  · rcases Nat.le_total a.1 b.1 with hi | hi
    · exact Or.inl (Or.inr ⟨h, hi⟩)
    · exact Or.inr (Or.inr ⟨h.symm, hi⟩)
  · exact Or.inr (Or.inl h)

theorem sortSelectedItems_sorted (items : List ScoredItem) :
    ((items.enum).mergeSort vertLE).Pairwise
      (fun p q => p.2.y < q.2.y ∨ (p.2.y = q.2.y ∧ p.1 ≤ q.1)) := by
  have h := List.sorted_mergeSort vertLE_trans vertLE_total (items.enum)
  exact h.imp (fun hab => by simpa [vertLE] using hab)

theorem sortSelectedItems_pairwise_y (items : List ScoredItem) :
    (sortSelectedItems items).Pairwise (fun a b => a.y ≤ b.y) := by
  unfold sortSelectedItems
  refine List.pairwise_map.mpr ((sortSelectedItems_sorted items).imp ?_)
  intro p q h
  rcases h with h | ⟨h, _⟩
  · exact le_of_lt h
  · exact le_of_eq h

/-- C5 counterexample: the claim as stated fails on the secondary viewer's
`extractFromSelection`, which emits kept runs in original document order
without sorting. With the identity viewport and two fully covered runs,
"alpha" positioned below "beta" but listed first, the output text is
"alpha beta" although ascending vertical order demands "beta" first: the
emitted vertical positions `[40, 0]` are not in ascending order. -/
theorem C5_vertical_order_counterexample :
    extractKept ⟨0, 0, 100, 100⟩ ⟨⟨1, 0, 0, 1, 0, 0⟩, 1⟩
        [⟨"alpha", ⟨1, 0, 0, 1, 0, 50⟩, 5, 10⟩, ⟨"beta", ⟨1, 0, 0, 1, 0, 10⟩, 5, 10⟩] =
      [⟨"alpha", ⟨1, 0, 0, 1, 0, 50⟩, 5, 10⟩, ⟨"beta", ⟨1, 0, 0, 1, 0, 10⟩, 5, 10⟩] ∧
    (itemBox ⟨⟨1, 0, 0, 1, 0, 0⟩, 1⟩ ⟨"beta", ⟨1, 0, 0, 1, 0, 10⟩, 5, 10⟩).y <
      (itemBox ⟨⟨1, 0, 0, 1, 0, 0⟩, 1⟩ ⟨"alpha", ⟨1, 0, 0, 1, 0, 50⟩, 5, 10⟩).y ∧
    ¬ ((extractKept ⟨0, 0, 100, 100⟩ ⟨⟨1, 0, 0, 1, 0, 0⟩, 1⟩
        [⟨"alpha", ⟨1, 0, 0, 1, 0, 50⟩, 5, 10⟩, ⟨"beta", ⟨1, 0, 0, 1, 0, 10⟩, 5, 10⟩]).map
          (fun i => (itemBox ⟨⟨1, 0, 0, 1, 0, 0⟩, 1⟩ i).y)).Pairwise (fun a b => a ≤ b) ∧
    (extractKept ⟨0, 0, 100, 100⟩ ⟨⟨1, 0, 0, 1, 0, 0⟩, 1⟩
        [⟨"alpha", ⟨1, 0, 0, 1, 0, 50⟩, 5, 10⟩, ⟨"beta", ⟨1, 0, 0, 1, 0, 10⟩, 5, 10⟩]).map
      TSXItem.str = ["alpha", "beta"] := by
  have hkept : extractKept ⟨0, 0, 100, 100⟩ ⟨⟨1, 0, 0, 1, 0, 0⟩, 1⟩
      [⟨"alpha", ⟨1, 0, 0, 1, 0, 50⟩, 5, 10⟩, ⟨"beta", ⟨1, 0, 0, 1, 0, 10⟩, 5, 10⟩] =
      [⟨"alpha", ⟨1, 0, 0, 1, 0, 50⟩, 5, 10⟩, ⟨"beta", ⟨1, 0, 0, 1, 0, 10⟩, 5, 10⟩] := by
    norm_num [extractKept, itemBox, utilTransform, getOverlap, List.filter]
  refine ⟨hkept, by norm_num [itemBox, utilTransform], ?_, by rw [hkept]; rfl⟩
  rw [hkept]
  norm_num [itemBox, utilTransform, List.pairwise_cons]

/-- C5 amended: in the PDFViewer component the kept runs are sorted by
the stable JS sort into ascending vertical position with ties broken by
original encounter order (stated on the index-tagged list), and the
runs surviving the whole extraction appear in ascending vertical order;
the secondary viewer's `extractFromSelection`, however, performs no
sorting — its kept runs are a sublist of the page's runs in original
document order. -/
theorem C5_extraction_vertical_order (items : List ScoredItem)
    (sel : SelectionRect) (vpHeight : ℚ) (raw : List TSXItem)
    (sel2 : SelectionRect) (vp : Viewport) (jsItems : List TSXItem) :
    ((items.enum).mergeSort vertLE).Pairwise
      (fun p q => p.2.y < q.2.y ∨ (p.2.y = q.2.y ∧ p.1 ≤ q.1)) ∧
    List.Perm ((items.enum).mergeSort vertLE) items.enum ∧
    sortSelectedItems items = ((items.enum).mergeSort vertLE).map (fun p => p.2) ∧
    (extractSelectedItemsTSX sel vpHeight raw).Pairwise (fun a b => a.y ≤ b.y) ∧
    List.Sublist (extractKept sel2 vp jsItems) jsItems :=
  ⟨sortSelectedItems_sorted items, List.mergeSort_perm _ _, rfl,
    List.Pairwise.sublist (List.filter_sublist _)
      (sortSelectedItems_pairwise_y (tsxKeptItems sel vpHeight raw)),
    List.filter_sublist _⟩

theorem postAsk_valid_eq (oc ac : Bool)
    (generate : Adapter → String → String → AIResponse)
    (cache : List (String × AIResponse)) (ctx q : String) (model : Option String)
    (hc1 : ctx ≠ "") (hc2 : ctx.length ≤ 10000) (hq1 : q ≠ "") (hq2 : q.length ≤ 1000) :
    postAsk oc ac generate cache (some ctx) (some q) model =
      match objGet cache (cacheKey ctx q) with
      | some cached => ⟨200, some cached, cache, false⟩
      | none =>
        ⟨200, some (generate (getModelAdapter oc ac model) ctx q),
          objSet cache (cacheKey ctx q) (generate (getModelAdapter oc ac model) ctx q),
          true⟩ := by
  have hg : (jsFalsyStr (some ctx) || jsFalsyStr (some q)) = false := by
    simp [jsFalsyStr, hc1, hq1]
  simp [postAsk, hg, not_lt.mpr hc2, not_lt.mpr hq2]

/-- C7: every request whose body is missing `context` or `question` (absent
or empty — both are falsy in JS), or whose context exceeds 10,000
characters, or whose question exceeds 1,000 characters, is answered with
status 400 and never reaches any answering adapter. -/
theorem C7_validation_rejects (oc ac : Bool)
    (generate : Adapter → String → String → AIResponse)
    (cache : List (String × AIResponse)) (context question model : Option String)
    (h : context = none ∨ context = some "" ∨ question = none ∨ question = some "" ∨
      (∃ ctx, context = some ctx ∧ 10000 < ctx.length) ∨
      (∃ q, question = some q ∧ 1000 < q.length)) :
    (postAsk oc ac generate cache context question model).status = 400 ∧
    (postAsk oc ac generate cache context question model).invokedAdapter = false := by
  have hout : postAsk oc ac generate cache context question model =
      ⟨400, none, cache, false⟩ := by
    rcases h with rfl | rfl | rfl | rfl | ⟨ctx, rfl, hlen⟩ | ⟨q, rfl, hlen⟩
    · simp [postAsk, jsFalsyStr]
    · simp [postAsk, jsFalsyStr]
    · simp [postAsk, jsFalsyStr]
    · simp [postAsk, jsFalsyStr]
    · by_cases hg : (jsFalsyStr (some ctx) || jsFalsyStr question) = true
      · simp [postAsk, hg]
      · simp [postAsk, hg, hlen]
    · by_cases hg : (jsFalsyStr context || jsFalsyStr (some q)) = true
      · simp [postAsk, hg]
      · by_cases hc : 10000 < (context.getD "").length
        · simp [postAsk, hg, hc]
        · simp [postAsk, hg, hc, hlen]
  rw [hout]
  exact ⟨rfl, rfl⟩

/-- C7 witness: the theorem applied to a request with a missing context. -/
theorem C7_validation_rejects_witness :
    ((none : Option String) = none ∨ (none : Option String) = some "" ∨
      (some "q" : Option String) = none ∨ (some "q" : Option String) = some "" ∨
      (∃ ctx, (none : Option String) = some ctx ∧ 10000 < ctx.length) ∨
      (∃ q, (some "q" : Option String) = some q ∧ 1000 < q.length)) ∧
    (postAsk false false (fun _ _ _ => ⟨"a", "demo"⟩) [] none (some "q") none).status
      = 400 ∧
    (postAsk false false (fun _ _ _ => ⟨"a", "demo"⟩) [] none
      (some "q") none).invokedAdapter = false :=
  ⟨Or.inl rfl,
    (C7_validation_rejects false false (fun _ _ _ => ⟨"a", "demo"⟩) [] none
      (some "q") none (Or.inl rfl)).1,
    (C7_validation_rejects false false (fun _ _ _ => ⟨"a", "demo"⟩) [] none
      (some "q") none (Or.inl rfl)).2⟩

/-- C8: a valid `(context, question)` pair submitted twice (while the cached
entry is live) yields the same payload on the second call with no second
adapter invocation and no cache change, and the cache key is derived from
the exact string `context|question`. -/
theorem C8_cache_short_circuits (oc ac : Bool)
    (generate : Adapter → String → String → AIResponse)
    (cache : List (String × AIResponse)) (ctx q : String) (model model2 : Option String)
    (hc1 : ctx ≠ "") (hc2 : ctx.length ≤ 10000) (hq1 : q ≠ "") (hq2 : q.length ≤ 1000) :
    (postAsk oc ac generate cache (some ctx) (some q) model).status = 200 ∧
    (postAsk oc ac generate (postAsk oc ac generate cache (some ctx) (some q) model).cache
      (some ctx) (some q) model2).status = 200 ∧
    (postAsk oc ac generate (postAsk oc ac generate cache (some ctx) (some q) model).cache
        (some ctx) (some q) model2).payload =
      (postAsk oc ac generate cache (some ctx) (some q) model).payload ∧
    (postAsk oc ac generate (postAsk oc ac generate cache (some ctx) (some q) model).cache
      (some ctx) (some q) model2).invokedAdapter = false ∧
    (postAsk oc ac generate (postAsk oc ac generate cache (some ctx) (some q) model).cache
        (some ctx) (some q) model2).cache =
      (postAsk oc ac generate cache (some ctx) (some q) model).cache ∧
    cacheKey ctx q = ctx ++ "|" ++ q := by
  have h1 := postAsk_valid_eq oc ac generate cache ctx q model hc1 hc2 hq1 hq2
  rcases hobj : objGet cache (cacheKey ctx q) with _ | r
  · rw [hobj] at h1
    rw [h1]
    have h2 := postAsk_valid_eq oc ac generate
      (objSet cache (cacheKey ctx q) (generate (getModelAdapter oc ac model) ctx q))
      ctx q model2 hc1 hc2 hq1 hq2
    rw [objGet_objSet_self] at h2
    rw [h2]
    exact ⟨rfl, rfl, rfl, rfl, rfl, rfl⟩
  · rw [hobj] at h1
    rw [h1]
    have h2 := postAsk_valid_eq oc ac generate cache ctx q model2 hc1 hc2 hq1 hq2
    rw [hobj] at h2
    rw [h2]
    exact ⟨rfl, rfl, rfl, rfl, rfl, rfl⟩

/-- C8 witness: the theorem applied to a concrete first-then-second call
with an empty initial cache, hypotheses discharged by `decide`. -/
theorem C8_cache_short_circuits_witness :
    (("c" : String) ≠ "") ∧ ("c" : String).length ≤ 10000 ∧
    (("q" : String) ≠ "") ∧ ("q" : String).length ≤ 1000 ∧
    ((postAsk false false (fun _ _ _ => ⟨"a", "demo"⟩) [] (some "c") (some "q")
        none).status = 200 ∧
    (postAsk false false (fun _ _ _ => ⟨"a", "demo"⟩)
      (postAsk false false (fun _ _ _ => ⟨"a", "demo"⟩) [] (some "c") (some "q")
        none).cache
      (some "c") (some "q") none).status = 200 ∧
    (postAsk false false (fun _ _ _ => ⟨"a", "demo"⟩)
        (postAsk false false (fun _ _ _ => ⟨"a", "demo"⟩) [] (some "c") (some "q")
          none).cache
        (some "c") (some "q") none).payload =
      (postAsk false false (fun _ _ _ => ⟨"a", "demo"⟩) [] (some "c") (some "q")
        none).payload ∧
    (postAsk false false (fun _ _ _ => ⟨"a", "demo"⟩)
      (postAsk false false (fun _ _ _ => ⟨"a", "demo"⟩) [] (some "c") (some "q")
        none).cache
      (some "c") (some "q") none).invokedAdapter = false ∧
    (postAsk false false (fun _ _ _ => ⟨"a", "demo"⟩)
        (postAsk false false (fun _ _ _ => ⟨"a", "demo"⟩) [] (some "c") (some "q")
          none).cache
        (some "c") (some "q") none).cache =
      (postAsk false false (fun _ _ _ => ⟨"a", "demo"⟩) [] (some "c") (some "q")
        none).cache ∧
    cacheKey "c" "q" = "c" ++ "|" ++ "q") :=
  ⟨by decide, by decide, by decide, by decide,
    C8_cache_short_circuits false false (fun _ _ _ => ⟨"a", "demo"⟩) [] "c" "q"
      none none (by decide) (by decide) (by decide) (by decide)⟩

/-- C9: adapter dispatch is total — a configured preferred provider is
honoured, an adapter is only ever returned for a configured provider,
the demo fallback is returned exactly when neither provider is
configured, and a valid request naming any model value (including an
unconfigured provider) is answered with status 200 rather than
rejected. -/
theorem C9_adapter_dispatch_total (oc ac : Bool) (m : Option String) :
    (m = some "openai" → oc = true → getModelAdapter oc ac m = Adapter.openaiAdapter) ∧
    (m = some "anthropic" → ac = true →
      getModelAdapter oc ac m = Adapter.anthropicAdapter) ∧
    (getModelAdapter oc ac m = Adapter.openaiAdapter → oc = true) ∧
    (getModelAdapter oc ac m = Adapter.anthropicAdapter → ac = true) ∧
    (getModelAdapter oc ac m = Adapter.fallbackAdapter ↔ oc = false ∧ ac = false) ∧
    (∀ (generate : Adapter → String → String → AIResponse)
        (cache : List (String × AIResponse)) (ctx q : String),
      ctx ≠ "" → ctx.length ≤ 10000 → q ≠ "" → q.length ≤ 1000 →
      (postAsk oc ac generate cache (some ctx) (some q) m).status = 200) := by
  refine ⟨?_, ?_, ?_, ?_, ?_, ?_⟩
  · rintro rfl hoc
    simp [getModelAdapter, hoc]
  · rintro rfl hac
    cases oc <;> simp [getModelAdapter, hac]
  · intro h
    cases oc
    · exfalso
      cases ac <;> revert h <;> simp [getModelAdapter]
    · rfl
  · intro h
    cases ac
    · exfalso
      cases oc <;> revert h <;> simp [getModelAdapter]
    · rfl
  · cases oc <;> cases ac
    · simp [getModelAdapter]
    · simp [getModelAdapter]
    · simp [getModelAdapter]
    · simp only [getModelAdapter]
      split_ifs <;> simp_all
  · intro generate cache ctx q h1 h2 h3 h4
    rw [postAsk_valid_eq oc ac generate cache ctx q m h1 h2 h3 h4]
    rcases objGet cache (cacheKey ctx q) with _ | r <;> rfl

/-- C9 witness: with neither provider configured, a request preferring
"openai" is served by the fallback adapter and still answered with
status 200. -/
theorem C9_adapter_dispatch_total_witness :
    getModelAdapter false false (some "openai") = Adapter.fallbackAdapter ∧
    (("c" : String) ≠ "") ∧
    (postAsk false false (fun _ _ _ => ⟨"a", "demo"⟩) [] (some "c") (some "q")
      (some "openai")).status = 200 :=
  ⟨((C9_adapter_dispatch_total false false (some "openai")).2.2.2.2.1).mpr ⟨rfl, rfl⟩,
    by decide,
    (C9_adapter_dispatch_total false false (some "openai")).2.2.2.2.2
      (fun _ _ _ => ⟨"a", "demo"⟩) [] "c" "q" (by decide) (by decide) (by decide)
      (by decide)⟩

end PdfAiTool
